import Mathlib

/-
Verification of the booking-token pipeline of `lambda_function.py`
(WooCommerce webhook receiver).  The Python source is shallowly embedded:
dictionaries become structures, Python values that matter to the pipeline
become the small inductive `PyVal`, byte strings become `List Nat` with
values below 256, and fallible code returns `Option` / `Except`.
-/

set_option autoImplicit false

/-! ## Python value model (metadata extraction layer) -/

/-- Projection of the Python values that can appear as a `meta_data` entry
value in an order payload: a string scalar, a list of strings, or `None`. -/
inductive PyVal where
  | pstr (s : String)
  | plist (l : List String)
  | pnone
deriving DecidableEq

/-- One element of a line item's `meta_data` list.  Both dictionary slots
may be missing, hence `Option`. -/
structure MetaEntry where
  key : Option String
  value : Option PyVal
deriving DecidableEq

/-- Embedding of `extract_meta_value` (src/lambda_function.py lines 73-78):
walk the entries, and at the first entry whose `key` equals the target
return `value[0]` if `value` is a non-empty list, else `value` itself
(with `[]` as the default for a missing `value` slot); return `None` when
no entry matches. -/
def extract_meta_value : List MetaEntry → String → PyVal
  | [], _ => PyVal.pnone
  | m :: rest, k =>
    if m.key = some k then
      match m.value.getD (PyVal.plist []) with
      | PyVal.plist (v :: _) => PyVal.pstr v
      | v => v
    else extract_meta_value rest k

/-- Python truthiness for the values `extract_meta_value` can return:
`None` and empty strings/lists are falsy. -/
def truthy : PyVal → Bool
  | PyVal.pstr s => !s.isEmpty
  | PyVal.plist l => !l.isEmpty
  | PyVal.pnone => false

/-- Python's `a or b`: `a` when truthy, else `b`. -/
def pyOr (a b : PyVal) : PyVal := if truthy a then a else b

/-- Projection of a WooCommerce line item: only `meta_data` feeds the
token pipeline. -/
structure LineItem where
  meta_data : List MetaEntry
deriving DecidableEq

/-- Metadata key holding the booking start time. -/
def startKey : String := "phive_display_time_from"

/-- Metadata key holding the booking end time. -/
def endKey : String := "phive_display_time_to"

/-- Embedding of the extraction loop (src/lambda_function.py lines
134-140): per item, `start_raw = extract_meta_value(meta, from_key) or
start_raw` and likewise for `end_raw`; break once both are truthy. -/
def extractTimes : List LineItem → PyVal × PyVal → PyVal × PyVal
  | [], acc => acc
  | item :: rest, (s, e) =>
    let s' := pyOr (extract_meta_value item.meta_data startKey) s
    let e' := pyOr (extract_meta_value item.meta_data endKey) e
    if truthy s' && truthy e' then (s', e') else extractTimes rest (s', e')

/-- Fallback window used when extraction fails for either side
(src/lambda_function.py line 143). -/
def sentinelWindow : String := "01/01/2025 00:00"

/-- Coercion of a truthy extraction result to the string carried into
`strptime`; the pipeline only reaches this on `pstr` values. -/
def pyStr : PyVal → String
  | PyVal.pstr s => s
  | PyVal.plist _ => ""
  | PyVal.pnone => ""

/-- Embedding of src/lambda_function.py lines 134-143: run the extraction
loop from `None`/`None`, then replace BOTH sides with the sentinel when
either is falsy (`if not start_raw or not end_raw`). -/
def bookingWindow (items : List LineItem) : String × String :=
  let r := extractTimes items (PyVal.pnone, PyVal.pnone)
  if !truthy r.1 || !truthy r.2 then (sentinelWindow, sentinelWindow)
  else (pyStr r.1, pyStr r.2)

/-- Declarative description of what the loop actually selects per key: the
extraction result of the LAST item (in a given prefix) whose extraction is
truthy, or `None` when no item's is. -/
def lastTruthyVal (items : List LineItem) (k : String) : PyVal :=
  match items.reverse.find? (fun it => truthy (extract_meta_value it.meta_data k)) with
  | some it => extract_meta_value it.meta_data k
  | none => PyVal.pnone

/-- First demo line item: provides only a start time `"A"`. -/
def demoItem1 : LineItem := ⟨[⟨some startKey, some (PyVal.plist ["A"])⟩]⟩

/-- Second demo line item: provides start time `"B"` and end time `"C"`. -/
def demoItem2 : LineItem :=
  ⟨[⟨some startKey, some (PyVal.plist ["B"])⟩, ⟨some endKey, some (PyVal.plist ["C"])⟩]⟩

/-! ## Timestamp parsing and packing (Token Encoder) -/

/-- Result of a successful `datetime.strptime(s, "%d/%m/%Y %H:%M")`: the
five parsed fields (seconds are implicitly zero). -/
structure PyDateTime where
  year : Nat
  month : Nat
  day : Nat
  hour : Nat
  minute : Nat
deriving DecidableEq

/-- Numeric value of a run of ASCII digit characters. -/
def digitsVal (l : List Char) : Nat :=
  l.foldl (fun a c => a * 10 + (c.toNat - 48)) 0

/-- Gregorian leap-year rule, as used by Python's `datetime`. -/
def isLeap (y : Nat) : Bool :=
  y % 4 == 0 && (y % 100 != 0 || y % 400 == 0)

/-- Number of days in a month, as validated by the `datetime` constructor. -/
def daysInMonth (y m : Nat) : Nat :=
  if m = 2 then (if isLeap y then 29 else 28)
  else if m = 4 ∨ m = 6 ∨ m = 9 ∨ m = 11 then 30
  else 31

/-- Whitespace characters matched by the regex class used for the literal
space of the format string. -/
def pySpace (c : Char) : Bool :=
  c = ' ' || c = '\t' || c = '\n' || c = '\r' || c = '\x0b' || c = '\x0c'

/-- Embedding of Python's `str.strip()` on a character list. -/
def pyStrip (l : List Char) : List Char :=
  ((l.dropWhile pySpace).reverse.dropWhile pySpace).reverse

/-- Embedding of `datetime.strptime(s, "%d/%m/%Y %H:%M")`
(src/lambda_function.py lines 146-147).  CPython compiles the format to
the anchored regex `day/month/yyyy\s+hour:minute` where day and month are
1-2 digit runs with values 1-31 / 1-12, the year is exactly 4 digits,
hour and minute are 1-2 digit runs with values 0-23 / 0-59, and the
whole input must be consumed; the `datetime` constructor then requires
year at least 1 (MINYEAR) and the day to fit the month.  Failure (here
`none`) raises `ValueError` in Python. -/
def parseTS (l : List Char) : Option PyDateTime :=
  let p1 := l.span Char.isDigit
  match p1.2 with
  | '/' :: t1 =>
    let p2 := t1.span Char.isDigit
    match p2.2 with
    | '/' :: t2 =>
      let p3 := t2.span Char.isDigit
      let p4 := p3.2.span pySpace
      let p5 := p4.2.span Char.isDigit
      match p5.2 with
      | ':' :: t3 =>
        let p6 := t3.span Char.isDigit
        let d := digitsVal p1.1
        let mo := digitsVal p2.1
        let y := digitsVal p3.1
        let h := digitsVal p5.1
        let mi := digitsVal p6.1
        if p6.2 = [] ∧ 1 ≤ p1.1.length ∧ p1.1.length ≤ 2 ∧ 1 ≤ d
           ∧ 1 ≤ p2.1.length ∧ p2.1.length ≤ 2 ∧ 1 ≤ mo ∧ mo ≤ 12
           ∧ p3.1.length = 4 ∧ 1 ≤ y
           ∧ 1 ≤ p4.1.length
           ∧ 1 ≤ p5.1.length ∧ p5.1.length ≤ 2 ∧ h ≤ 23
           ∧ 1 ≤ p6.1.length ∧ p6.1.length ≤ 2 ∧ mi ≤ 59
           ∧ d ≤ daysInMonth y mo
        then some ⟨y, mo, d, h, mi⟩
        else none
      | _ => none
    | _ => none
  | _ => none

/-- ASCII digit character for a value below 10. -/
def digitChar (n : Nat) : Char :=
  match n with
  | 0 => '0' | 1 => '1' | 2 => '2' | 3 => '3' | 4 => '4'
  | 5 => '5' | 6 => '6' | 7 => '7' | 8 => '8' | 9 => '9'
  | _ => '0'

/-- Two-digit zero-padded decimal rendering (strftime `%m`, `%d`, `%H`,
`%M`, `%S`). -/
def pad2 (n : Nat) : List Char := [digitChar (n / 10 % 10), digitChar (n % 10)]

/-- Four-digit zero-padded decimal rendering (strftime `%Y` as documented
by Python; faithful for the 4-digit years `strptime` can produce). -/
def pad4 (n : Nat) : List Char :=
  [digitChar (n / 1000 % 10), digitChar (n / 100 % 10),
   digitChar (n / 10 % 10), digitChar (n % 10)]

/-- Embedding of `dt.strftime("%Y%m%d%H%M%S")` (src/lambda_function.py
lines 150-151); the parsed datetime always has seconds zero. -/
def packTS (d : PyDateTime) : String :=
  String.mk (pad4 d.year ++ pad2 d.month ++ pad2 d.day
    ++ pad2 d.hour ++ pad2 d.minute ++ ['0', '0'])

/-- Embedding of the plaintext construction
`f"[,,{start_dt},{end_dt},,,,,]"` (src/lambda_function.py line 154). -/
def qrString (d1 d2 : PyDateTime) : String :=
  "[,," ++ packTS d1 ++ "," ++ packTS d2 ++ ",,,,,]"

/-- Error value standing for the `ValueError` raised by `strptime`. -/
def parseErrorMsg : String := "time data does not match format"

/-! ## UTF-8, PKCS7 padding, ECB mode, base64 (Block Cipher Sealer) -/

/-- UTF-8 encoding of one character (the byte sequence Python's
`str.encode('utf-8')` produces for it). -/
def utf8Char (c : Char) : List Nat :=
  let u := c.toNat
  if u < 128 then [u]
  else if u < 2048 then [192 + u / 64, 128 + u % 64]
  else if u < 65536 then [224 + u / 4096, 128 + u / 64 % 64, 128 + u % 64]
  else [240 + u / 262144, 128 + u / 4096 % 64, 128 + u / 64 % 64, 128 + u % 64]

/-- UTF-8 encoding of a string as a byte list (Python `s.encode('utf-8')`). -/
def utf8Encode (s : String) : List Nat :=
  s.data.foldr (fun c acc => utf8Char c ++ acc) []

/-- Embedding of `pkcs7_pad` (src/lambda_function.py lines 46-48), which
delegates to the library's PKCS7(128) padder: append N bytes of value N,
where N = 16 - len mod 16 (a full block when len is already a multiple). -/
def pkcs7_pad (data : List Nat) : List Nat :=
  data ++ List.replicate (16 - data.length % 16) (16 - data.length % 16)

/-- Modelled from the spec: the scanner-side removal of PKCS-style padding
("stripping PKCS-style padding"): drop as many trailing bytes as the last
byte's value. -/
def pkcs7_unpad (data : List Nat) : List Nat :=
  data.take (data.length - data.getLastD 0)

/-- ECB mode (`modes.ECB()`): apply the block function independently to
each 16-byte chunk, with no IV and no chaining. -/
def ecbMap (f : List Nat → List Nat) (l : List Nat) : List Nat :=
  if _hl : l = [] then [] else f (l.take 16) ++ ecbMap f (l.drop 16)
termination_by l.length
decreasing_by
  simp only [List.length_drop]
  have hp := List.length_pos.mpr _hl
  omega

/-- Base64 alphabet of RFC 4648, as used by Python's `base64.b64encode`. -/
def b64Alphabet : List Char :=
  "ABCDEFGHIJKLMNOPQRSTUVWXYZabcdefghijklmnopqrstuvwxyz0123456789+/".data

/-- Character for a 6-bit group. -/
def sextetChar (n : Nat) : Char := b64Alphabet.getD n 'A'

/-- Value of a base64 alphabet character. -/
def charSextet (c : Char) : Nat := b64Alphabet.indexOf c

/-- Base64 encoding of a byte list (Python `base64.b64encode`): three
bytes become four characters; a remainder of one or two bytes is encoded
with `=` padding. -/
def encBytes : List Nat → List Char
  | a :: b :: c :: rest =>
    sextetChar (a / 4) :: sextetChar (a % 4 * 16 + b / 16)
      :: sextetChar (b % 16 * 4 + c / 64) :: sextetChar (c % 64) :: encBytes rest
  | [a, b] => [sextetChar (a / 4), sextetChar (a % 4 * 16 + b / 16),
               sextetChar (b % 16 * 4), '=']
  | [a] => [sextetChar (a / 4), sextetChar (a % 4 * 16), '=', '=']
  | [] => []

/-- Modelled from the spec: the scanner-side base64 decoder
("base64-decoding" the token): four characters back to three bytes, with
`=` padding signalling a short final group. -/
def decChars : List Char → List Nat
  | w :: x :: y :: z :: rest =>
    let sw := charSextet w
    let sx := charSextet x
    if y = '=' then [sw * 4 + sx / 16]
    else if z = '=' then [sw * 4 + sx / 16, sx % 16 * 16 + charSextet y / 4]
    else (sw * 4 + sx / 16) :: (sx % 16 * 16 + charSextet y / 4)
      :: (charSextet y % 4 * 64 + charSextet z) :: decChars rest
  | _ => []

/-- Base64-encode a byte list to a string. -/
def b64encode (l : List Nat) : String := String.mk (encBytes l)

/-- Base64-decode a string to a byte list. -/
def b64decode (s : String) : List Nat := decChars s.data

/-- Validity of an AES data block: 16 bytes, each below 256. -/
def ValidBlock (b : List Nat) : Prop := b.length = 16 ∧ ∀ x ∈ b, x < 256

/-- Embedding of `encrypt_aes_ecb` (src/lambda_function.py lines 50-56),
parameterized by the AES block permutation `enc` that the external
`cryptography` library supplies per key.  The key is the first 32 bytes
of the UTF-8 encoded secret (`AES_KEY.encode('utf-8')[:32]`);
`algorithms.AES` raises `ValueError` for key sizes other than 16, 24 or
32 bytes, modeled as an error result; there is no exception handling in
this function. -/
def encrypt_aes_ecb (enc : List Nat → List Nat → List Nat) (aesKey : String)
    (plaintext : String) : Except String String :=
  let key := (utf8Encode aesKey).take 32
  if key.length = 16 ∨ key.length = 24 ∨ key.length = 32 then
    Except.ok (b64encode (ecbMap (enc key) (pkcs7_pad (utf8Encode plaintext))))
  else Except.error "Invalid AES key size"

/-- Modelled from the spec: the scanner strips the leading 4-character
`SK01` marker (Python slice `s[4:]`). -/
def stripMarker (s : String) : String := String.mk (s.data.drop 4)

/-! ## Lambda handler (orchestrator) -/

/-- Projection of the payload's `billing` dictionary: only `email` drives
control flow (`billing.get("email")`; a missing `billing` dictionary acts
like one with no email). -/
structure Billing where
  email : Option String
deriving DecidableEq

/-- Projection of the JSON-decoded order payload onto the fields the
handler's control flow depends on. -/
structure Payload where
  line_items : List LineItem
  billing : Billing
deriving DecidableEq

/-- The Lambda event: `event.get("body", "")` and
`event.get("isBase64Encoded", False)`. -/
structure Event where
  body : Option String
  isBase64Encoded : Option Bool
deriving DecidableEq

/-- The dictionary returned by the handler. -/
structure HttpResponse where
  statusCode : Nat
  body : String
deriving DecidableEq

/-- External collaborators used by the handler, each fallible call modeled
as `Except` (an `error` stands for a raised exception): body base64
decoding, `json.loads`, the AES block permutation and configured key,
QR PNG rendering, HTML template rendering, and SMTP sending. -/
structure Externals where
  b64decodeBody : String → Except String String
  jsonLoads : String → Except String Payload
  encBlock : List Nat → List Nat → List Nat
  aesKey : String
  qrPng : String → Except String (List Nat)
  renderHtml : String → String → String → Except String String
  sendEmail : String → String → List Nat → Except String Unit

/-- Embedding of `dt_start - timedelta(minutes=10)` (line 148): borrow
through hour, day, month and year; `none` models the `OverflowError` when
the result would precede `datetime.min`. -/
def subTenMin (d : PyDateTime) : Option PyDateTime :=
  if 10 ≤ d.minute then some { d with minute := d.minute - 10 }
  else if 1 ≤ d.hour then some { d with hour := d.hour - 1, minute := d.minute + 50 }
  else if 2 ≤ d.day then some { d with day := d.day - 1, hour := 23, minute := d.minute + 50 }
  else if 2 ≤ d.month then
    some { d with month := d.month - 1, day := daysInMonth d.year (d.month - 1),
                  hour := 23, minute := d.minute + 50 }
  else if 2 ≤ d.year then some ⟨d.year - 1, 12, 31, 23, d.minute + 50⟩
  else none

/-- Embedding of `strftime("%d/%m/%Y %H:%M")` for the entry time shown in
the email body. -/
def entryTimeStr (d : PyDateTime) : String :=
  String.mk (pad2 d.day ++ ['/'] ++ pad2 d.month ++ ['/'] ++ pad4 d.year
    ++ [' '] ++ pad2 d.hour ++ [':'] ++ pad2 d.minute)

/-- Python falsiness of `billing.get("email")`: `None` or the empty
string. -/
def pyFalsyStrOpt (o : Option String) : Bool :=
  match o with
  | none => true
  | some s => s.isEmpty

/-- The body-decoding and JSON-parsing stage (src/lambda_function.py
lines 128-131): `base64.b64decode` when `isBase64Encoded` is truthy, then
`json.loads`; each raised exception is an `error`. -/
def decodedPayload (ext : Externals) (event : Event) : Except String Payload :=
  match (if event.isBase64Encoded.getD false
         then ext.b64decodeBody (event.body.getD "")
         else Except.ok (event.body.getD "")) with
  | Except.error e => Except.error e
  | Except.ok raw => ext.jsonLoads raw

/-- The rest of the `try:` block after JSON parsing (src/lambda_function.py
lines 134-191): derive the booking window, parse both timestamps, compute
the entry time, encrypt the token, render the QR, return 400 when the
billing email is falsy, render the template, send the email, return 200. -/
def handlerRest (ext : Externals) (payload : Payload) : Except String HttpResponse :=
  match parseTS (pyStrip (bookingWindow payload.line_items).1.data) with
      | none => Except.error parseErrorMsg
      | some dtStart =>
        match parseTS (pyStrip (bookingWindow payload.line_items).2.data) with
        | none => Except.error parseErrorMsg
        | some dtEnd =>
          match subTenMin dtStart with
          | none => Except.error "date value out of range"
          | some entryT =>
            match encrypt_aes_ecb ext.encBlock ext.aesKey (qrString dtStart dtEnd) with
            | Except.error e => Except.error e
            | Except.ok ct =>
              match ext.qrPng ("SK01" ++ ct) with
              | Except.error e => Except.error e
              | Except.ok png =>
                if pyFalsyStrOpt payload.billing.email then Except.ok ⟨400, "No email"⟩
                else
                  match ext.renderHtml (entryTimeStr entryT)
                      (bookingWindow payload.line_items).1
                      (bookingWindow payload.line_items).2 with
                  | Except.error e => Except.error e
                  | Except.ok html =>
                    match ext.sendEmail (payload.billing.email.getD "") html png with
                    | Except.error e => Except.error e
                    | Except.ok _ => Except.ok ⟨200, "OK"⟩

/-- Body of the `try:` block of `lambda_handler` (src/lambda_function.py
lines 126-191): the decoding stage followed by the pipeline stage. -/
def handlerCore (ext : Externals) (event : Event) : Except String HttpResponse :=
  match decodedPayload ext event with
  | Except.error e => Except.error e
  | Except.ok payload => handlerRest ext payload

/-- Embedding of `lambda_handler` (src/lambda_function.py lines 123-195):
the catch-all `except` converts every exception into the 200/"OK"
response (line 195, "Keep webhook alive"). -/
def lambda_handler (ext : Externals) (event : Event) : HttpResponse :=
  match handlerCore ext event with
  | Except.ok r => r
  | Except.error _ => ⟨200, "OK"⟩

/-- Token Encoder: embedding of src/lambda_function.py lines 146-154
(strip and parse both raw timestamps, pack them, build the plaintext).
There is no exception handling at this layer: a parse failure is an
error result. -/
def tokenEncode (s1 s2 : String) : Except String String :=
  match parseTS (pyStrip s1.data) with
  | none => Except.error parseErrorMsg
  | some d1 =>
    match parseTS (pyStrip s2.data) with
    | none => Except.error parseErrorMsg
    | some d2 => Except.ok (qrString d1 d2)

/-! ## Helper lemmas -/

theorem digitChar_mod_isDigit (m : Nat) : (digitChar (m % 10)).isDigit = true := by
  have h : m % 10 < 10 := Nat.mod_lt _ (by norm_num)
  generalize m % 10 = k at h
  interval_cases k <;> decide

theorem packTS_length (d : PyDateTime) : (packTS d).length = 14 := rfl

theorem packTS_digits (d : PyDateTime) : ∀ c ∈ (packTS d).data, c.isDigit = true := by
  intro c hc
  simp only [packTS, pad4, pad2, List.cons_append, List.nil_append,
    List.mem_cons, List.not_mem_nil, or_false] at hc
  rcases hc with h | h | h | h | h | h | h | h | h | h | h | h | h | h <;>
    (subst h; first
      | exact digitChar_mod_isDigit _
      | decide)

theorem lastTruthyVal_append_one (l : List LineItem) (it : LineItem) (k : String) :
    lastTruthyVal (l ++ [it]) k
      = pyOr (extract_meta_value it.meta_data k) (lastTruthyVal l k) := by
  unfold lastTruthyVal pyOr
  rw [List.reverse_append]
  simp only [List.reverse_singleton, List.singleton_append, List.find?]
  cases h : truthy (extract_meta_value it.meta_data k) <;> simp [h]

theorem extractTimes_as_lastTruthy (items : List LineItem) : ∀ pre : List LineItem,
    ∃ n, extractTimes items (lastTruthyVal pre startKey, lastTruthyVal pre endKey)
      = (lastTruthyVal (pre ++ items.take n) startKey,
         lastTruthyVal (pre ++ items.take n) endKey) := by
  induction items with
  | nil =>
    intro pre
    exact ⟨0, by simp [extractTimes]⟩
  | cons item rest ih =>
    intro pre
    have hs := lastTruthyVal_append_one pre item startKey
    have he := lastTruthyVal_append_one pre item endKey
    by_cases hb : (truthy (pyOr (extract_meta_value item.meta_data startKey) (lastTruthyVal pre startKey))
        && truthy (pyOr (extract_meta_value item.meta_data endKey) (lastTruthyVal pre endKey))) = true
    · refine ⟨1, ?_⟩
      simp only [extractTimes, hb, if_pos]
      rw [List.take_succ_cons, List.take_zero]
      rw [hs, he]
    · obtain ⟨n, hn⟩ := ih (pre ++ [item])
      refine ⟨n + 1, ?_⟩
      simp only [extractTimes, hb, if_neg, Bool.not_eq_true]
      rw [← hs, ← he, hn]
      simp [List.take_succ_cons, List.append_assoc]

/-- Values returned by `extract_meta_value` that are truthy are always
non-empty strings. -/
theorem truthy_extract_pstr (l : List MetaEntry) (k : String)
    (h : truthy (extract_meta_value l k) = true) :
    ∃ s, extract_meta_value l k = PyVal.pstr s ∧ s ≠ "" := by
  induction l with
  | nil => simp [extract_meta_value, truthy] at h
  | cons m rest ih =>
    by_cases hk : m.key = some k
    · simp only [extract_meta_value, hk, if_pos] at h ⊢
      revert h
      match m.value.getD (PyVal.plist []) with
      | PyVal.pstr s =>
        intro h
        refine ⟨s, rfl, fun hs => ?_⟩
        subst hs
        exact absurd h (by decide)
      | PyVal.plist [] => intro h; simp [truthy] at h
      | PyVal.plist (v :: vs) =>
        intro h
        refine ⟨v, rfl, fun hv => ?_⟩
        subst hv
        exact absurd (show truthy (PyVal.pstr "") = true from h) (by decide)
      | PyVal.pnone => intro h; simp [truthy] at h
    · simp only [extract_meta_value, hk, if_neg] at h ⊢
      exact ih h

/-- Origin of the first component of the loop state: it is either the
initial accumulator or some item's extraction result for the start key. -/
theorem extractTimes_fst_origin (items : List LineItem) : ∀ acc : PyVal × PyVal,
    (extractTimes items acc).1 = acc.1
      ∨ ∃ it, it ∈ items ∧ (extractTimes items acc).1 = extract_meta_value it.meta_data startKey := by
  induction items with
  | nil => intro acc; exact Or.inl rfl
  | cons item rest ih =>
    intro ⟨s, e⟩
    simp only [extractTimes]
    by_cases hb : (truthy (pyOr (extract_meta_value item.meta_data startKey) s)
        && truthy (pyOr (extract_meta_value item.meta_data endKey) e)) = true
    · simp only [hb, if_pos]
      unfold pyOr
      by_cases ht : truthy (extract_meta_value item.meta_data startKey) = true
      · exact Or.inr ⟨item, List.mem_cons_self .., by simp [ht]⟩
      · simp only [Bool.not_eq_true] at ht
        exact Or.inl (by simp [ht])
    · simp only [hb, if_neg, Bool.not_eq_true]
      rcases ih (pyOr (extract_meta_value item.meta_data startKey) s,
                 pyOr (extract_meta_value item.meta_data endKey) e) with h | ⟨it, hmem, hval⟩
      · rw [h]
        unfold pyOr
        by_cases ht : truthy (extract_meta_value item.meta_data startKey) = true
        · exact Or.inr ⟨item, List.mem_cons_self .., by simp [ht]⟩
        · simp only [Bool.not_eq_true] at ht
          exact Or.inl (by simp [ht])
      · exact Or.inr ⟨it, List.mem_cons_of_mem _ hmem, hval⟩

/-- Origin of the second component of the loop state, symmetric to
`extractTimes_fst_origin`. -/
theorem extractTimes_snd_origin (items : List LineItem) : ∀ acc : PyVal × PyVal,
    (extractTimes items acc).2 = acc.2
      ∨ ∃ it, it ∈ items ∧ (extractTimes items acc).2 = extract_meta_value it.meta_data endKey := by
  induction items with
  | nil => intro acc; exact Or.inl rfl
  | cons item rest ih =>
    intro ⟨s, e⟩
    simp only [extractTimes]
    by_cases hb : (truthy (pyOr (extract_meta_value item.meta_data startKey) s)
        && truthy (pyOr (extract_meta_value item.meta_data endKey) e)) = true
    · simp only [hb, if_pos]
      unfold pyOr
      by_cases ht : truthy (extract_meta_value item.meta_data endKey) = true
      · exact Or.inr ⟨item, List.mem_cons_self .., by simp [ht]⟩
      · simp only [Bool.not_eq_true] at ht
        exact Or.inl (by simp [ht])
    · simp only [hb, if_neg, Bool.not_eq_true]
      rcases ih (pyOr (extract_meta_value item.meta_data startKey) s,
                 pyOr (extract_meta_value item.meta_data endKey) e) with h | ⟨it, hmem, hval⟩
      · rw [h]
        unfold pyOr
        by_cases ht : truthy (extract_meta_value item.meta_data endKey) = true
        · exact Or.inr ⟨item, List.mem_cons_self .., by simp [ht]⟩
        · simp only [Bool.not_eq_true] at ht
          exact Or.inl (by simp [ht])
      · exact Or.inr ⟨it, List.mem_cons_of_mem _ hmem, hval⟩

/-! ## Claim theorems (metadata layer) -/

/-- C4 counterexample.  The claim says a non-absent value found on an
earlier line item is never replaced by a later one.  But the loop computes
`extract_meta_value(...) or start_raw`, so a later truthy extraction
overrides the earlier one: with `demoItem1` supplying start `"A"` and
`demoItem2` supplying start `"B"` and end `"C"`, the loop returns `"B"`,
not the first-found `"A"`. -/
theorem c4_counterexample :
    extractTimes [demoItem1, demoItem2] (PyVal.pnone, PyVal.pnone)
      = (PyVal.pstr "B", PyVal.pstr "C")
    ∧ extract_meta_value demoItem1.meta_data startKey = PyVal.pstr "A"
    ∧ PyVal.pstr "A" ≠ PyVal.pstr "B" := by
  refine ⟨by decide, by decide, by decide⟩

/-- C4 amended.  The value selected for each key is the LAST truthy
extraction result for that key over the prefix of line items the loop
processes (the loop stops early once both keys hold truthy values); an
earlier truthy value is replaced by a later processed item's truthy
value. -/
theorem c4_last_truthy_selection (items : List LineItem) :
    ∃ n, extractTimes items (PyVal.pnone, PyVal.pnone)
      = (lastTruthyVal (items.take n) startKey, lastTruthyVal (items.take n) endKey) := by
  have h := extractTimes_as_lastTruthy items []
  simpa [lastTruthyVal] using h

/-- C5.  For every order payload the derived booking window either equals
the sentinel `"01/01/2025 00:00"` on both sides, or both sides are
non-empty strings extracted from some line item's metadata. -/
theorem c5_window_invariant (items : List LineItem) :
    bookingWindow items = (sentinelWindow, sentinelWindow)
    ∨ ((∃ it1, it1 ∈ items
          ∧ extract_meta_value it1.meta_data startKey = PyVal.pstr (bookingWindow items).1
          ∧ (bookingWindow items).1 ≠ "")
       ∧ (∃ it2, it2 ∈ items
          ∧ extract_meta_value it2.meta_data endKey = PyVal.pstr (bookingWindow items).2
          ∧ (bookingWindow items).2 ≠ "")) := by
  unfold bookingWindow
  by_cases hc : (!truthy (extractTimes items (PyVal.pnone, PyVal.pnone)).1
      || !truthy (extractTimes items (PyVal.pnone, PyVal.pnone)).2) = true
  · exact Or.inl (by simp only [hc, if_pos])
  · have hst : truthy (extractTimes items (PyVal.pnone, PyVal.pnone)).1 = true := by
      cases h1 : truthy (extractTimes items (PyVal.pnone, PyVal.pnone)).1
      · exact absurd (by simp [h1]) hc
      · rfl
    have hen : truthy (extractTimes items (PyVal.pnone, PyVal.pnone)).2 = true := by
      cases h2 : truthy (extractTimes items (PyVal.pnone, PyVal.pnone)).2
      · exact absurd (by simp [h2]) hc
      · rfl
    refine Or.inr ?_
    simp only [hc, if_neg, Bool.not_eq_true]
    constructor
    · rcases extractTimes_fst_origin items (PyVal.pnone, PyVal.pnone) with h | ⟨it, hmem, hval⟩
      · rw [h] at hst; simp [truthy] at hst
      · rw [hval] at hst
        obtain ⟨s, hs, hne⟩ := truthy_extract_pstr _ _ hst
        exact ⟨it, hmem, by rw [hval, hs]; simp [pyStr], by rw [hval, hs]; simpa [pyStr] using hne⟩
    · rcases extractTimes_snd_origin items (PyVal.pnone, PyVal.pnone) with h | ⟨it, hmem, hval⟩
      · rw [h] at hen; simp [truthy] at hen
      · rw [hval] at hen
        obtain ⟨s, hs, hne⟩ := truthy_extract_pstr _ _ hen
        exact ⟨it, hmem, by rw [hval, hs]; simp [pyStr], by rw [hval, hs]; simpa [pyStr] using hne⟩

/-- C8 counterexample.  The claim says extraction returns THE absent-value
marker both when no entry matches and when the first matching entry's
value is an empty list.  The code returns the empty list itself in the
second case, and `None` only in the first; the two results differ. -/
theorem c8_counterexample :
    extract_meta_value [⟨some "k", some (PyVal.plist [])⟩] "k" = PyVal.plist []
    ∧ extract_meta_value [] "k" = PyVal.pnone
    ∧ PyVal.plist [] ≠ PyVal.pnone := by
  refine ⟨by decide, by decide, by decide⟩

/-- C8 amended.  Extraction is characterized by the first entry whose key
equals the target: first element for a non-empty list value, the scalar
itself otherwise (including the empty list ITSELF — a falsy value distinct
from the `None` returned when no entry matches). -/
theorem c8_first_match_characterization (l : List MetaEntry) (k : String) :
    extract_meta_value l k =
      match List.find? (fun m => decide (m.key = some k)) l with
      | none => PyVal.pnone
      | some m =>
        match m.value.getD (PyVal.plist []) with
        | PyVal.plist (v :: _) => PyVal.pstr v
        | v => v := by
  induction l with
  | nil => rfl
  | cons m rest ih =>
    by_cases h : m.key = some k
    · simp [extract_meta_value, List.find?_cons, h]
    · have hd : (decide (m.key = some k)) = false := by simp [h]
      simp only [extract_meta_value, if_neg h, List.find?_cons, hd]
      exact ih

/-! ## Claim theorems (Token Encoder) -/

/-- C1.  For every pair of input timestamp strings that parse under the
`"DD/MM/YYYY HH:MM"` format, the Token Encoder produces exactly
`[,,<start_packed>,<end_packed>,,,,,]` — nine comma-separated fields with
only fields 3 and 4 populated — where each packed value is the 14-digit
`YYYYMMDDHHMMSS` rendering of its input with seconds `00`. -/
theorem c1_token_encoder_output (s1 s2 : String) (d1 d2 : PyDateTime)
    (h1 : parseTS (pyStrip s1.data) = some d1)
    (h2 : parseTS (pyStrip s2.data) = some d2) :
    tokenEncode s1 s2 = Except.ok ("[,," ++ packTS d1 ++ "," ++ packTS d2 ++ ",,,,,]")
    ∧ (packTS d1).length = 14 ∧ (packTS d2).length = 14
    ∧ (∀ c ∈ (packTS d1).data, c.isDigit = true)
    ∧ (∀ c ∈ (packTS d2).data, c.isDigit = true)
    ∧ (packTS d1).data.drop 12 = ['0', '0']
    ∧ (packTS d2).data.drop 12 = ['0', '0'] :=
  ⟨by simp [tokenEncode, h1, h2, qrString], packTS_length d1, packTS_length d2,
   packTS_digits d1, packTS_digits d2, rfl, rfl⟩

/-- C1 witness: the spec's concrete example, obtained from
`c1_token_encoder_output` at `15/06/2025 14:30` and `15/06/2025 16:00`. -/
theorem c1_witness :
    parseTS (pyStrip ("15/06/2025 14:30".data)) = some ⟨2025, 6, 15, 14, 30⟩
    ∧ tokenEncode "15/06/2025 14:30" "15/06/2025 16:00"
        = Except.ok "[,,20250615143000,20250615160000,,,,,]" := by
  have h := c1_token_encoder_output "15/06/2025 14:30" "15/06/2025 16:00"
    ⟨2025, 6, 15, 14, 30⟩ ⟨2025, 6, 15, 16, 0⟩ (by rfl) (by rfl)
  exact ⟨by rfl, by rw [h.1]; rfl⟩

/-- C3 counterexample.  The claim says an unparsable timestamp is replaced
by the sentinel `19700101000000` and no error escapes the encoding layer.
The source (lines 146-147) has no such fallback: `strptime` raises, so the
encoder yields an error, not a plaintext containing the sentinel. -/
theorem c3_counterexample :
    tokenEncode "garbage" "15/06/2025 16:00" = Except.error parseErrorMsg
    ∧ tokenEncode "garbage" "15/06/2025 16:00"
        ≠ Except.ok "[,,19700101000000,20250615160000,,,,,]" := by
  refine ⟨by rfl, ?_⟩
  intro h
  rw [show tokenEncode "garbage" "15/06/2025 16:00" = Except.error parseErrorMsg from rfl] at h
  exact Except.noConfusion h

/-- C3 amended.  When either timestamp fails to parse, the Token Encoder
raises: the `ValueError` escapes the encoding layer (to be caught only by
the handler's top-level catch-all); no sentinel is substituted. -/
theorem c3_parse_failure_propagates (s1 s2 : String)
    (h : parseTS (pyStrip s1.data) = none ∨ parseTS (pyStrip s2.data) = none) :
    tokenEncode s1 s2 = Except.error parseErrorMsg := by
  rcases h with h | h
  · simp [tokenEncode, h]
  · cases hp : parseTS (pyStrip s1.data) <;> simp [tokenEncode, hp, h]

/-- C3 witness: `c3_parse_failure_propagates` applied to the concrete
unparsable input `"garbage"`. -/
theorem c3_witness :
    (parseTS (pyStrip ("garbage".data)) = none
      ∨ parseTS (pyStrip ("15/06/2025 16:00".data)) = none)
    ∧ tokenEncode "garbage" "15/06/2025 16:00" = Except.error parseErrorMsg :=
  ⟨Or.inl (by rfl),
   c3_parse_failure_propagates "garbage" "15/06/2025 16:00" (Or.inl (by rfl))⟩

/-! ## Claim theorems (Block Cipher Sealer: padding, key handling, ECB) -/

/-- C7.  `pkcs7_pad` appends exactly N bytes of value N with
N = 16 - len mod 16, a full extra block when len is a multiple of 16,
and the output length is the smallest multiple of 16 strictly greater
than the input length. -/
theorem c7_pkcs7_pad_spec (l : List Nat) :
    pkcs7_pad l = l ++ List.replicate (16 - l.length % 16) (16 - l.length % 16)
    ∧ 1 ≤ 16 - l.length % 16
    ∧ 16 - l.length % 16 ≤ 16
    ∧ (l.length % 16 = 0 → 16 - l.length % 16 = 16)
    ∧ (pkcs7_pad l).length % 16 = 0
    ∧ l.length < (pkcs7_pad l).length
    ∧ ∀ m, m % 16 = 0 → l.length < m → (pkcs7_pad l).length ≤ m := by
  refine ⟨rfl, by omega, by omega, fun h => by omega, ?_, ?_, ?_⟩
  · simp only [pkcs7_pad, List.length_append, List.length_replicate]
    omega
  · simp only [pkcs7_pad, List.length_append, List.length_replicate]
    omega
  · intro m hm hlt
    simp only [pkcs7_pad, List.length_append, List.length_replicate]
    omega

/-- C7 witness: `c7_pkcs7_pad_spec` evaluated at a one-byte input, using
the minimality clause at the bound 16. -/
theorem c7_witness :
    pkcs7_pad [0] = [0] ++ List.replicate 15 15 ∧ (pkcs7_pad [0]).length ≤ 16 :=
  ⟨(c7_pkcs7_pad_spec [0]).1, (c7_pkcs7_pad_spec [0]).2.2.2.2.2.2 16 rfl (by decide)⟩

/-- C9.  When the derived cipher key (first 32 bytes of the UTF-8 encoded
secret) does not have length 16, 24 or 32, `encrypt_aes_ecb` returns an
error (the `ValueError` of `algorithms.AES`) instead of a ciphertext, and
nothing inside the sealer catches it. -/
theorem c9_bad_key_error (enc : List Nat → List Nat → List Nat)
    (secret plaintext : String)
    (h : ¬(((utf8Encode secret).take 32).length = 16
          ∨ ((utf8Encode secret).take 32).length = 24
          ∨ ((utf8Encode secret).take 32).length = 32)) :
    encrypt_aes_ecb enc secret plaintext = Except.error "Invalid AES key size" := by
  simp only [encrypt_aes_ecb, if_neg h]

/-- C9 witness: a five-byte secret, via `c9_bad_key_error`. -/
theorem c9_witness :
    encrypt_aes_ecb (fun _ b => b) "short" "x" = Except.error "Invalid AES key size" :=
  c9_bad_key_error (fun _ b => b) "short" "x" (by decide)

/-! ## ECB and padding helper lemmas -/

theorem ecbMap_ne_nil (f : List Nat → List Nat) (l : List Nat) (h : l ≠ []) :
    ecbMap f l = f (l.take 16) ++ ecbMap f (l.drop 16) := by
  rw [ecbMap]
  simp [h]

theorem pkcs7_pad_ne_nil (l : List Nat) : pkcs7_pad l ≠ [] := by
  intro hc
  have := congrArg List.length hc
  simp only [pkcs7_pad, List.length_append, List.length_replicate, List.length_nil] at this
  omega

theorem pkcs7_pad_len_ge (l : List Nat) : 16 ≤ (pkcs7_pad l).length := by
  simp only [pkcs7_pad, List.length_append, List.length_replicate]
  omega

theorem pkcs7_pad_take16_len (l : List Nat) : ((pkcs7_pad l).take 16).length = 16 := by
  rw [List.length_take]
  have := pkcs7_pad_len_ge l
  omega

theorem pkcs7_unpad_pkcs7_pad (l : List Nat) : pkcs7_unpad (pkcs7_pad l) = l := by
  have hlast : (pkcs7_pad l).getLastD 0 = 16 - l.length % 16 := by
    have hrep : List.replicate (16 - l.length % 16) (16 - l.length % 16)
        = List.replicate (16 - l.length % 16 - 1) (16 - l.length % 16) ++ [16 - l.length % 16] := by
      rw [← List.replicate_succ']
      congr 1
      omega
    rw [pkcs7_pad, hrep, ← List.append_assoc, List.getLastD_concat]
  rw [pkcs7_unpad, hlast]
  have hlen : (pkcs7_pad l).length = l.length + (16 - l.length % 16) := by
    simp [pkcs7_pad]
  rw [hlen, show l.length + (16 - l.length % 16) - (16 - l.length % 16) = l.length by omega]
  rw [pkcs7_pad]
  exact List.take_left ..

theorem pkcs7_pad_bytes_lt (l : List Nat) (h : ∀ x ∈ l, x < 256) :
    ∀ x ∈ pkcs7_pad l, x < 256 := by
  intro x hx
  rcases List.mem_append.mp hx with h1 | h2
  · exact h x h1
  · have := List.eq_of_mem_replicate h2
    omega

theorem ecbMap_bytes_lt (f : List Nat → List Nat)
    (hf : ∀ b, ValidBlock b → ValidBlock (f b)) :
    ∀ n (l : List Nat), l.length ≤ n → 16 ∣ l.length → (∀ x ∈ l, x < 256) →
      ∀ x ∈ ecbMap f l, x < 256 := by
  intro n
  induction n with
  | zero =>
    intro l hl _ _ x hx
    have : l = [] := List.length_eq_zero.mp (Nat.le_zero.mp hl)
    subst this
    rw [ecbMap] at hx
    simp at hx
  | succ n ih =>
    intro l hl hd hb x hx
    by_cases h0 : l = []
    · subst h0
      rw [ecbMap] at hx
      simp at hx
    · have hlen : 16 ≤ l.length := Nat.le_of_dvd (List.length_pos.mpr h0) hd
      have htake : ValidBlock (l.take 16) :=
        ⟨by rw [List.length_take]; omega, fun y hy => hb y (List.take_subset _ _ hy)⟩
      rw [ecbMap_ne_nil _ _ h0] at hx
      rcases List.mem_append.mp hx with h1 | h2
      · exact (hf _ htake).2 x h1
      · exact ih (l.drop 16) (by rw [List.length_drop]; omega)
          (by rw [List.length_drop]; exact Nat.dvd_sub' hd ⟨1, rfl⟩)
          (fun y hy => hb y (List.drop_subset _ _ hy)) x h2

theorem ecbMap_roundtrip (encB decB : List Nat → List Nat)
    (hval : ∀ b, ValidBlock b → ValidBlock (encB b))
    (hinv : ∀ b, ValidBlock b → decB (encB b) = b) :
    ∀ n (l : List Nat), l.length ≤ n → 16 ∣ l.length → (∀ x ∈ l, x < 256) →
      ecbMap decB (ecbMap encB l) = l := by
  intro n
  induction n with
  | zero =>
    intro l hl _ _
    have : l = [] := List.length_eq_zero.mp (Nat.le_zero.mp hl)
    subst this
    rw [ecbMap, ecbMap]
    simp
  | succ n ih =>
    intro l hl hd hb
    by_cases h0 : l = []
    · subst h0
      rw [ecbMap, ecbMap]
      simp
    · have hlen : 16 ≤ l.length := Nat.le_of_dvd (List.length_pos.mpr h0) hd
      have htake : ValidBlock (l.take 16) :=
        ⟨by rw [List.length_take]; omega, fun y hy => hb y (List.take_subset _ _ hy)⟩
      have henc : ValidBlock (encB (l.take 16)) := hval _ htake
      rw [ecbMap_ne_nil _ _ h0]
      have hne2 : encB (l.take 16) ++ ecbMap encB (l.drop 16) ≠ [] := by
        intro hc
        have := congrArg List.length hc
        simp only [List.length_append, List.length_nil, henc.1] at this
        omega
      rw [ecbMap_ne_nil _ _ hne2]
      have htk : (encB (l.take 16) ++ ecbMap encB (l.drop 16)).take 16 = encB (l.take 16) :=
        List.take_left' henc.1
      have hdr : (encB (l.take 16) ++ ecbMap encB (l.drop 16)).drop 16 = ecbMap encB (l.drop 16) :=
        List.drop_left' henc.1
      rw [htk, hdr, hinv _ htake,
        ih (l.drop 16) (by rw [List.length_drop]; omega)
          (by rw [List.length_drop]; exact Nat.dvd_sub' hd ⟨1, rfl⟩)
          (fun y hy => hb y (List.drop_subset _ _ hy))]
      exact List.take_append_drop 16 l

/-! ## Claim theorem C6 -/

/-- C6.  The sealer is deterministic (a pure function of key and
plaintext), and in ECB mode two plaintexts whose padded UTF-8 encodings
share their leading 16-byte block yield ciphertexts sharing their leading
16-byte block. -/
theorem c6_ecb_determinism (enc : List Nat → List Nat → List Nat) (key p1 p2 : String)
    (hlen : ∀ b, b.length = 16 → (enc ((utf8Encode key).take 32) b).length = 16)
    (hb : (pkcs7_pad (utf8Encode p1)).take 16 = (pkcs7_pad (utf8Encode p2)).take 16) :
    encrypt_aes_ecb enc key p1 = encrypt_aes_ecb enc key p1
    ∧ (ecbMap (enc ((utf8Encode key).take 32)) (pkcs7_pad (utf8Encode p1))).take 16
        = (ecbMap (enc ((utf8Encode key).take 32)) (pkcs7_pad (utf8Encode p2))).take 16 := by
  refine ⟨rfl, ?_⟩
  rw [ecbMap_ne_nil _ _ (pkcs7_pad_ne_nil _), ecbMap_ne_nil _ _ (pkcs7_pad_ne_nil _)]
  have h1 : (enc ((utf8Encode key).take 32) ((pkcs7_pad (utf8Encode p1)).take 16)).length = 16 :=
    hlen _ (pkcs7_pad_take16_len _)
  have h2 : (enc ((utf8Encode key).take 32) ((pkcs7_pad (utf8Encode p2)).take 16)).length = 16 :=
    hlen _ (pkcs7_pad_take16_len _)
  have e1 : (enc ((utf8Encode key).take 32) ((pkcs7_pad (utf8Encode p1)).take 16)
      ++ ecbMap (enc ((utf8Encode key).take 32)) ((pkcs7_pad (utf8Encode p1)).drop 16)).take 16
      = enc ((utf8Encode key).take 32) ((pkcs7_pad (utf8Encode p1)).take 16) :=
    List.take_left' h1
  have e2 : (enc ((utf8Encode key).take 32) ((pkcs7_pad (utf8Encode p2)).take 16)
      ++ ecbMap (enc ((utf8Encode key).take 32)) ((pkcs7_pad (utf8Encode p2)).drop 16)).take 16
      = enc ((utf8Encode key).take 32) ((pkcs7_pad (utf8Encode p2)).take 16) :=
    List.take_left' h2
  rw [e1, e2, hb]

/-- C6 witness: the identity block function and two plaintexts agreeing on
their first 16 bytes, via `c6_ecb_determinism`. -/
theorem c6_witness :
    (pkcs7_pad (utf8Encode "0123456789abcdefXX")).take 16
      = (pkcs7_pad (utf8Encode "0123456789abcdefYY")).take 16
    ∧ (ecbMap ((fun _ b => b) ((utf8Encode "k").take 32)) (pkcs7_pad (utf8Encode "0123456789abcdefXX"))).take 16
        = (ecbMap ((fun _ b => b) ((utf8Encode "k").take 32)) (pkcs7_pad (utf8Encode "0123456789abcdefYY"))).take 16 := by
  have h := c6_ecb_determinism (fun _ b => b) "k" "0123456789abcdefXX" "0123456789abcdefYY"
    (fun b hb => hb) (by decide)
  exact ⟨by decide, h.2⟩

/-! ## Base64 and UTF-8 helper lemmas -/

theorem charSextet_sextetChar : ∀ n, n < 64 → charSextet (sextetChar n) = n := by decide

theorem sextetChar_ne_eq : ∀ n, n < 64 → sextetChar n ≠ '=' := by decide

theorem decChars_encBytes : ∀ n (l : List Nat), l.length ≤ n → (∀ x ∈ l, x < 256) →
    decChars (encBytes l) = l := by
  intro n
  induction n with
  | zero =>
    intro l hl _
    have : l = [] := List.length_eq_zero.mp (Nat.le_zero.mp hl)
    subst this
    rfl
  | succ n ih =>
    intro l hl hb
    match l with
    | [] => rfl
    | [a] =>
      have ha : a < 256 := hb a (by simp)
      have h1 : a / 4 < 64 := by omega
      have h2 : a % 4 * 16 < 64 := by omega
      simp only [encBytes, decChars]
      rw [if_pos trivial]
      rw [charSextet_sextetChar _ h1, charSextet_sextetChar _ h2]
      simp only [List.cons.injEq, and_true]
      omega
    | [a, b] =>
      have ha : a < 256 := hb a (by simp)
      have hb2 : b < 256 := hb b (by simp)
      have h1 : a / 4 < 64 := by omega
      have h2 : a % 4 * 16 + b / 16 < 64 := by omega
      have h3 : b % 16 * 4 < 64 := by omega
      simp only [encBytes, decChars]
      rw [if_neg (sextetChar_ne_eq _ h3), if_pos trivial]
      rw [charSextet_sextetChar _ h1, charSextet_sextetChar _ h2, charSextet_sextetChar _ h3]
      simp only [List.cons.injEq, and_true]
      omega
    | a :: b :: c :: rest =>
      have ha : a < 256 := hb a (by simp)
      have hb2 : b < 256 := hb b (by simp)
      have hc : c < 256 := hb c (by simp)
      have h1 : a / 4 < 64 := by omega
      have h2 : a % 4 * 16 + b / 16 < 64 := by omega
      have h3 : b % 16 * 4 + c / 64 < 64 := by omega
      have h4 : c % 64 < 64 := by omega
      have hrest : decChars (encBytes rest) = rest :=
        ih rest (by simp only [List.length_cons] at hl; omega)
          (fun x hx => hb x (by simp [hx]))
      simp only [encBytes, decChars]
      rw [if_neg (sextetChar_ne_eq _ h3), if_neg (sextetChar_ne_eq _ h4)]
      rw [charSextet_sextetChar _ h1, charSextet_sextetChar _ h2,
          charSextet_sextetChar _ h3, charSextet_sextetChar _ h4, hrest]
      simp only [List.cons.injEq, and_true]
      refine ⟨by omega, by omega, by omega⟩

theorem charToNat_lt (c : Char) : c.toNat < 1114112 := by
  rcases c.valid with h | ⟨_, h⟩ <;> (unfold Char.toNat; omega)

theorem utf8Char_lt (c : Char) : ∀ x ∈ utf8Char c, x < 256 := by
  intro x hx
  have h := charToNat_lt c
  simp only [utf8Char] at hx
  split at hx
  · simp only [List.mem_cons, List.not_mem_nil, or_false] at hx
    omega
  · split at hx
    · simp only [List.mem_cons, List.not_mem_nil, or_false] at hx
      rcases hx with rfl | rfl <;> omega
    · split at hx
      · simp only [List.mem_cons, List.not_mem_nil, or_false] at hx
        rcases hx with rfl | rfl | rfl <;> omega
      · simp only [List.mem_cons, List.not_mem_nil, or_false] at hx
        rcases hx with rfl | rfl | rfl | rfl <;> omega

theorem utf8Encode_lt (s : String) : ∀ x ∈ utf8Encode s, x < 256 := by
  unfold utf8Encode
  generalize s.data = l
  induction l with
  | nil => simp
  | cons c cs ih =>
    intro x hx
    simp only [List.foldr_cons] at hx
    rcases List.mem_append.mp hx with h1 | h2
    · exact utf8Char_lt c x h1
    · exact ih x h2

theorem pkcs7_pad_length_dvd (l : List Nat) : 16 ∣ (pkcs7_pad l).length := by
  simp only [pkcs7_pad, List.length_append, List.length_replicate]
  omega

/-! ## Claim theorem C2 -/

/-- C2.  For every key whose UTF-8 encoding is 16, 24 or 32 bytes long and
every plaintext, the SealedToken round-trips: stripping the 4-character
`SK01` marker, base64-decoding, ECB-decrypting each block with the
inverse block permutation for the same derived key, and removing the
PKCS7 padding recovers the UTF-8 bytes of the original plaintext.  The
AES block permutation itself is external library code, represented by an
arbitrary pair `enc`/`dec` of mutually inverse 16-byte block maps. -/
theorem c2_sealed_token_roundtrip
    (enc dec : List Nat → List Nat → List Nat) (key plaintext : String)
    (hkey : (utf8Encode key).length = 16 ∨ (utf8Encode key).length = 24
          ∨ (utf8Encode key).length = 32)
    (hval : ∀ k b, ValidBlock b → ValidBlock (enc k b))
    (hinv : ∀ k b, ValidBlock b → dec k (enc k b) = b) :
    ∃ ct, encrypt_aes_ecb enc key plaintext = Except.ok ct
      ∧ pkcs7_unpad (ecbMap (dec ((utf8Encode key).take 32))
            (b64decode (stripMarker ("SK01" ++ ct)))) = utf8Encode plaintext := by
  have htk : (utf8Encode key).take 32 = utf8Encode key :=
    List.take_of_length_le (by omega)
  have hcond : ((utf8Encode key).take 32).length = 16
      ∨ ((utf8Encode key).take 32).length = 24
      ∨ ((utf8Encode key).take 32).length = 32 := by rw [htk]; exact hkey
  refine ⟨b64encode (ecbMap (enc ((utf8Encode key).take 32))
      (pkcs7_pad (utf8Encode plaintext))), ?_, ?_⟩
  · simp only [encrypt_aes_ecb]
    rw [if_pos hcond]
  · have hstrip : stripMarker ("SK01" ++ b64encode (ecbMap (enc ((utf8Encode key).take 32))
        (pkcs7_pad (utf8Encode plaintext))))
        = b64encode (ecbMap (enc ((utf8Encode key).take 32)) (pkcs7_pad (utf8Encode plaintext))) := by
      unfold stripMarker b64encode
      rw [String.data_append]
      rfl
    rw [hstrip]
    have hpadlt : ∀ x ∈ pkcs7_pad (utf8Encode plaintext), x < 256 :=
      pkcs7_pad_bytes_lt _ (utf8Encode_lt plaintext)
    have hpaddvd : 16 ∣ (pkcs7_pad (utf8Encode plaintext)).length :=
      pkcs7_pad_length_dvd _
    have hBlt : ∀ x ∈ ecbMap (enc ((utf8Encode key).take 32)) (pkcs7_pad (utf8Encode plaintext)),
        x < 256 :=
      ecbMap_bytes_lt _ (hval _) _ _ le_rfl hpaddvd hpadlt
    have hdec : b64decode (b64encode (ecbMap (enc ((utf8Encode key).take 32))
        (pkcs7_pad (utf8Encode plaintext))))
        = ecbMap (enc ((utf8Encode key).take 32)) (pkcs7_pad (utf8Encode plaintext)) :=
      decChars_encBytes _ _ le_rfl hBlt
    rw [hdec,
      ecbMap_roundtrip (enc ((utf8Encode key).take 32)) (dec ((utf8Encode key).take 32))
        (hval _) (hinv _) _ _ le_rfl hpaddvd hpadlt]
    exact pkcs7_unpad_pkcs7_pad _

/-- C2 witness: `c2_sealed_token_roundtrip` with the identity block
permutation and a 16-byte key. -/
theorem c2_witness :
    ∃ ct, encrypt_aes_ecb (fun _ b => b) "0123456789abcdef" "token" = Except.ok ct
      ∧ pkcs7_unpad (ecbMap ((fun (_ : List Nat) (b : List Nat) => b)
            ((utf8Encode "0123456789abcdef").take 32))
          (b64decode (stripMarker ("SK01" ++ ct)))) = utf8Encode "token" :=
  c2_sealed_token_roundtrip (fun _ b => b) (fun _ b => b) "0123456789abcdef" "token"
    (Or.inl (by decide)) (fun _ _ hb => hb) (fun _ _ _ => rfl)

/-! ## Claim theorem C10 -/

theorem handlerCore_cases (ext : Externals) (event : Event) :
    handlerCore ext event = Except.ok ⟨200, "OK"⟩
    ∨ (handlerCore ext event = Except.ok ⟨400, "No email"⟩
        ∧ ∃ p, decodedPayload ext event = Except.ok p ∧ pyFalsyStrOpt p.billing.email = true)
    ∨ ∃ e, handlerCore ext event = Except.error e := by
  unfold handlerCore handlerRest
  repeat' split
  all_goals try exact Or.inl rfl
  all_goals try (right; right; exact ⟨_, rfl⟩)
  have hp : ∃ p, decodedPayload ext event = Except.ok p
      ∧ pyFalsyStrOpt p.billing.email = true :=
    ⟨_, by assumption, by assumption⟩
  exact Or.inr (Or.inl ⟨rfl, hp⟩)

/-- C10.  For every webhook event and every behavior of the external
collaborators, `lambda_handler` returns a response dictionary (it never
propagates an exception): every internal failure is converted to
statusCode 200 with body `"OK"`, so the only non-200 response is the
400/"No email" returned when the decoded payload's billing email is
missing or empty. -/
theorem c10_handler_total_response (ext : Externals) (event : Event) :
    lambda_handler ext event = ⟨200, "OK"⟩
    ∨ (lambda_handler ext event = ⟨400, "No email"⟩
       ∧ ∃ p, decodedPayload ext event = Except.ok p
            ∧ pyFalsyStrOpt p.billing.email = true) := by
  rcases handlerCore_cases ext event with h | ⟨h, hp⟩ | ⟨e, h⟩
  · left
    unfold lambda_handler
    rw [h]
  · right
    refine ⟨?_, hp⟩
    unfold lambda_handler
    rw [h]
  · left
    unfold lambda_handler
    rw [h]
